import Mathlib

/-!
Verification of the static-shape generation pipelines of this repository
(`src/cpp/src/llm_pipeline_npu.cpp` and `src/cpp/src/whisper_pipeline_static.cpp`)
against their natural-language specification.

The embedding keeps the source structure: tensors whose contents the claims
mention are `List Int` buffers, the KV-cache descriptor is a record of two
counters, device inference is recorded as an event in a trace (the network
itself is outside the program; the token that `utils::argmax` selects after
the n-th inference is abstracted as an oracle `Nat → Int`), and thrown
exceptions become `Except` errors.  All counters are `Nat`; the one place
where the source's `uint32_t` arithmetic can wrap — the attention-mask write
index `total_size - num_stored_tokens - 1` of line 284 — is modelled with an
explicit `% 2^32`.
-/

/-- `KVCacheDesc` of `llm_pipeline_npu.hpp` / line 136: total capacity and the
number of tokens currently stored, both `uint32_t` in the source. -/
structure KVCacheDesc where
  total_size : Nat
  num_stored_tokens : Nat
deriving DecidableEq

/-- The fields of `ov::genai::GenerationConfig` that the NPU pipeline reads.
`is_greedy` stands for `config.is_greedy_decoding()`; `max_new_tokens` stands
for the value of `config.get_max_new_tokens(prompt_len)` (that helper is not
under `src/`; per the spec it yields the configured maximum new-token count). -/
structure NPUGenerationConfig where
  max_new_tokens : Nat
  eos_token_id : Int
  is_greedy : Bool
deriving DecidableEq

/-- The pipeline state a generation call can read or mutate: the cache
descriptor plus the bound input tensors of the prefill and kvcache infer
requests (each of length `total_size` after `reshape_to_static`).  The
kvcache request's `input_ids` and `position_ids` are single-slot tensors. -/
structure NPUState where
  desc : KVCacheDesc
  prefill_input_ids : List Int
  prefill_position_ids : List Int
  prefill_attention_mask : List Int
  kvcache_attention_mask : List Int
  kv_input_id : Int
  kv_position_id : Int
deriving DecidableEq

/-- Observable actions of a generation call: the two kinds of device
inference (each recording `num_stored_tokens` at submission time, the
generate-graph one also recording the attention-mask index written just
before it on line 284) and each `streamer->put` delivery. -/
inductive NPUEvent where
  | prefillInfer (stored_before : Nat)
  | generateInfer (stored_before : Nat) (mask_write_index : Nat)
  | streamerPut (token : Int) (put_index : Nat)
deriving DecidableEq

/-- `fill_tensor` (lines 79–82): fill the whole buffer with one value. -/
def fill_tensor (size : Nat) (fill_val : Int) : List Int :=
  List.replicate size fill_val

/-- `copy_with_left_offset` (lines 84–91): copy `orig` into the tail of
`padded`, keeping the first `padded.length - orig.length` elements. -/
def copy_with_left_offset (orig padded : List Int) : List Int :=
  padded.take (padded.length - orig.length) ++ orig

/-- Lines 244–246: the prefill `position_ids` buffer after
`prepare_for_new_conversation` zero-filled it and
`std::iota(data + (total_size - prompt_len + 1), data + total_size, 0)`
wrote an increasing sequence starting at offset `total_size - prompt_len + 1`. -/
def prefill_position_ids_buffer (total_size prompt_len : Nat) : List Int :=
  (List.range total_size).map fun i =>
    if total_size - prompt_len + 1 ≤ i then ((i - (total_size - prompt_len + 1) : Nat) : Int)
    else 0

/-- Line 284: the index `total_size - num_stored_tokens - 1` computed in
`uint32_t` arithmetic, which wraps around when `num_stored_tokens ≥ total_size`. -/
def mask_write_index (total stored : Nat) : Nat :=
  (((total : Int) - (stored : Int) - 1) % (2 ^ 32 : Int)).toNat

/-- `prepare_for_new_conversation` (lines 160–166): fill the prefill
`input_ids` with the pad token, the prefill `position_ids` and both
attention masks with 0, and reset `num_stored_tokens` to 0. -/
def prepare_for_new_conversation (pad_token : Int) (st : NPUState) : NPUState :=
  { st with
    prefill_input_ids := fill_tensor st.prefill_input_ids.length pad_token
    prefill_position_ids := fill_tensor st.prefill_position_ids.length 0
    prefill_attention_mask := fill_tensor st.prefill_attention_mask.length 0
    kvcache_attention_mask := fill_tensor st.kvcache_attention_mask.length 0
    desc := { st.desc with num_stored_tokens := 0 } }

/-- The mutable data of the decode loop of lines 280–306. -/
structure NPULoopState where
  stored : Nat
  last_token : Int
  put_index : Nat
  infer_index : Nat
  tokens : List Int
  kv_attention_mask : List Int
  kv_input_id : Int
  kv_position_id : Int
  events : List NPUEvent
deriving DecidableEq

/-- The decode loop `for (int i = 0; i < max_tokens - 1; ++i)` of lines
281–306, one fuel unit per remaining iteration.  Per iteration: write the
previous token into the single-slot `input_ids`, write `num_stored_tokens`
into the single-slot `position_ids`, set the attention-mask element at the
`uint32_t` index `total_size - num_stored_tokens - 1` to 1, submit the
generate-graph inference, increment `num_stored_tokens`, select the next
token (abstracted by `oracle`), append it to the results, then break on a
streamer stop, on equality with the pipeline-default `eos_token_id`
(line 297 reads `m_generation_config`, not the per-call config), or on
`num_stored_tokens == total_size`. -/
def npu_decode_loop (oracle : Nat → Int) (sink : Option (Int → Nat → Bool))
    (default_eos : Int) (total : Nat) : Nat → NPULoopState → NPULoopState
  | 0, s => s
  | fuel + 1, s =>
    let idx := mask_write_index total s.stored
    let s1 : NPULoopState :=
      { s with
        kv_input_id := s.last_token
        kv_position_id := (s.stored : Int)
        kv_attention_mask := s.kv_attention_mask.set idx 1
        events := s.events ++ [NPUEvent.generateInfer s.stored idx]
        stored := s.stored + 1 }
    let tok := oracle s1.infer_index
    let s2 : NPULoopState :=
      { s1 with
        infer_index := s1.infer_index + 1
        last_token := tok
        tokens := s1.tokens ++ [tok] }
    match sink with
    | some f =>
      let s3 : NPULoopState :=
        { s2 with
          events := s2.events ++ [NPUEvent.streamerPut tok s2.put_index]
          put_index := s2.put_index + 1 }
      if f tok s2.put_index then s3
      else if tok = default_eos then s3
      else if s3.stored = total then s3
      else npu_decode_loop oracle sink default_eos total fuel s3
    | none =>
      if tok = default_eos then s2
      else if s2.stored = total then s2
      else npu_decode_loop oracle sink default_eos total fuel s2

/-- Lines 205–208: the per-call configuration's eos token after defaulting —
the per-call value unless it was left unset (-1), in which case the
pipeline-default `m_generation_config.eos_token_id` is taken. -/
def effective_eos (cfg default_cfg : NPUGenerationConfig) : Int :=
  if cfg.eos_token_id = -1 then default_cfg.eos_token_id else cfg.eos_token_id

/-- The outcome of a generation call: the thrown error or the produced token
list, together with the final pipeline state and the event trace.  (The
source also returns a placeholder score, `results.scores[0] = 0`, which no
claim mentions.) -/
structure NPUOutcome where
  result : Except String (List Int)
  state : NPUState
  events : List NPUEvent

/-- `NPULLMPipelineImpl::generate` over encoded inputs (lines 185–308), for
the supported batch size 1 (a larger batch throws before touching any state,
line 201).  `cfg` is the per-call configuration after the defaulting of
line 173; `default_cfg` is `m_generation_config`; `oracle n` is the token
`utils::argmax` selects after the n-th inference of the call (prefill is
inference 0); a `sink` receives `(token, put_index)` and returns the stop
flag.  The prefill→kvcache cache-tensor transfer of lines 262–274 copies
between opaque cache buffers that no claim quantifies over and is not
tracked. -/
def npu_generate (st : NPUState) (pad_token : Int)
    (input_ids attention_mask : List Int)
    (cfg default_cfg : NPUGenerationConfig)
    (sink : Option (Int → Nat → Bool)) (oracle : Nat → Int) : NPUOutcome :=
  -- Lines 206–208 write `effective_eos cfg default_cfg` back into the local
  -- config's eos_token_id; no later statement of the call reads that field
  -- again (the loop's check on line 297 uses `m_generation_config`), so the
  -- assignment is dead and is kept as the standalone `effective_eos` above.
  -- line 220: only greedy decoding is supported
  if cfg.is_greedy = false then
    { result := Except.error "Currently only greedy decoding is supported for NPU device"
      state := st, events := [] }
  else
    -- lines 230–233: the prompt must fit into the cache
    let prompt_len := input_ids.length
    if st.desc.total_size < prompt_len then
      { result := Except.error ("Currently NPU device may only process up to "
          ++ toString st.desc.total_size ++ " tokens")
        state := st, events := [] }
    else
      -- line 236
      let st := prepare_for_new_conversation pad_token st
      -- lines 238–246
      let st := { st with
        prefill_input_ids := copy_with_left_offset input_ids st.prefill_input_ids
        prefill_attention_mask :=
          copy_with_left_offset attention_mask st.prefill_attention_mask
        prefill_position_ids :=
          prefill_position_ids_buffer st.desc.total_size prompt_len }
      -- line 248: prefill inference
      let events := [NPUEvent.prefillInfer st.desc.num_stored_tokens]
      -- line 251
      let st := { st with desc :=
        { st.desc with num_stored_tokens := st.desc.num_stored_tokens + prompt_len } }
      -- lines 252–255: first token, streamed but not appended to the results
      let last_token := oracle 0
      let events := match sink with
        | some _ => events ++ [NPUEvent.streamerPut last_token 0]
        | none => events
      let first_stop := match sink with
        | some f => f last_token 0
        | none => false
      if first_stop then
        { result := Except.ok [], state := st, events := events }
      else
        -- line 257: the padded attention mask becomes the kvcache mask
        let st := { st with kvcache_attention_mask := st.prefill_attention_mask }
        let fin := npu_decode_loop oracle sink default_cfg.eos_token_id
          st.desc.total_size (cfg.max_new_tokens - 1)
          { stored := st.desc.num_stored_tokens
            last_token := last_token
            put_index := if sink.isSome then 1 else 0
            infer_index := 1
            tokens := []
            kv_attention_mask := st.kvcache_attention_mask
            kv_input_id := st.kv_input_id
            kv_position_id := st.kv_position_id
            events := events }
        { result := Except.ok fin.tokens
          state := { st with
            desc := { st.desc with num_stored_tokens := fin.stored }
            kvcache_attention_mask := fin.kv_attention_mask
            kv_input_id := fin.kv_input_id
            kv_position_id := fin.kv_position_id }
          events := fin.events }

/-- The pipeline state right after construction (lines 136 and 151): the
descriptor is `{1024, 0}` in the source, kept as a parameter here, and every
bound tensor has just been through `prepare_for_new_conversation`. -/
def npu_initial_state (total : Nat) (pad_token : Int) : NPUState :=
  { desc := { total_size := total, num_stored_tokens := 0 }
    prefill_input_ids := List.replicate total pad_token
    prefill_position_ids := List.replicate total 0
    prefill_attention_mask := List.replicate total 0
    kvcache_attention_mask := List.replicate total 0
    kv_input_id := 0
    kv_position_id := 0 }

/-!
## Whisper static pipeline (`src/cpp/src/whisper_pipeline_static.cpp`)

The control flow of `StaticWhisperPipeline::generate` (lines 371–416),
`full_decode` (lines 297–332) and its helpers is embedded over an event
trace.  Tokens produced by the networks are abstracted by an oracle, as for
the NPU pipeline: `first chunk` is the token the first-decode graph selects
for a chunk, `step chunk i` the token the decode-with-past graph selects at
step `i` of that chunk.

The source's `decode_with_past` (lines 222–283) ends in an unconditional
debug `throw 1` (line 281), surrounded by commented-out diagnostic prints;
the spec's design notes flag this forced failure as unfinished debug code
whose behaviour the specification deliberately omits.  Both readings are
embedded below: `whisper_with_past_loop_faithful` keeps the throw (and hence
always aborts on its first iteration), while the `_intended` definitions are
modelled from the spec with only that debug failure removed — every other
statement follows the source.
-/

/-- Observable actions of a Whisper generation call, each tagged with the
index of the audio chunk being processed: the encoder run (line 62), the
first-decode run (line 175), the one-shot encoder-side cross-attention
key/value copy of `copy_cross_attn_key_value` (lines 75–97), each
decoder-side self-attention key/value copy of `update_past_key_value`
(lines 99–126) with the destination offset `kv_pos` and the copied length
`kv_size` along the sequence axis, the decode-with-past run (line 271), and
each `streamer->put` delivery. -/
inductive WhisperEvent where
  | encodeInfer (chunk : Nat)
  | firstDecodeInfer (chunk : Nat)
  | crossAttnCopy (chunk : Nat)
  | decoderKVCopy (chunk : Nat) (kv_pos : Nat) (kv_size : Nat)
  | withPastInfer (chunk : Nat) (step : Nat)
  | streamPut (chunk : Nat) (token : Int)
deriving DecidableEq

/-- The chunk index an event is tagged with. -/
def WhisperEvent.chunkTag : WhisperEvent → Nat
  | .encodeInfer c => c
  | .firstDecodeInfer c => c
  | .crossAttnCopy c => c
  | .decoderKVCopy c _ _ => c
  | .withPastInfer c _ => c
  | .streamPut c _ => c

/-- The token oracle abstracting the two decoder networks (and the argmax
over their suppressed logits). -/
structure WhisperOracle where
  first : Nat → Int
  step : Nat → Nat → Int

/-- Line 303: the hardcoded fixed prompt of special tokens fed to the
first-decode graph. -/
def whisper_input_ids : List Int := [50258, 50259, 50359, 50363]

/-- `prepare_decoder_with_past` (lines 285–295): one cross-attention
key/value copy from the first-decode outputs, then one decoder-side
key/value copy at offset 0 whose length is the first-decode sequence length
(the `whisper_input_ids` prompt).  The routine also initialises the
decode-with-past attention mask, which no claim quantifies over. -/
def prepare_decoder_with_past_events (chunk : Nat) : List WhisperEvent :=
  [WhisperEvent.crossAttnCopy chunk,
   WhisperEvent.decoderKVCopy chunk 0 whisper_input_ids.length]

/-- What one `full_decode` call returns, plus the trace and the running
streamer put counter. -/
structure WhisperFDResult where
  cancelled : Bool
  tokens : List Int
  put_index : Nat
  events : List WhisperEvent

/-- Faithful embedding of the loop of lines 316–329: the first call to
`decode_with_past` writes its inputs, runs the inference, and then reaches
the source's unconditional debug `throw 1` (line 281), so the loop always
aborts during its first iteration (when it has fuel at all), propagating the
failure; the events up to the abort are carried by the error. -/
def whisper_with_past_loop_faithful (chunk : Nat) :
    Nat → Nat → List Int → List WhisperEvent →
    Except (List WhisperEvent) WhisperFDResult
  | 0, _, toks, evs =>
    Except.ok { cancelled := false, tokens := toks, put_index := 0, events := evs }
  | _ + 1, i, _, evs =>
    Except.error (evs ++ [WhisperEvent.withPastInfer chunk i])

/-- Modelled from the spec: the loop of lines 316–329 with the debug
`throw 1` of line 281 removed (the spec's design notes single that statement
out as unfinished debug code to be omitted; everything else follows the
source).  Per step `i`: `decode_with_past` writes the previous token and the
position id `i + input_ids.size()`, sets the attention-mask bit at
`position_id - 1`, runs the inference and selects a token (the oracle);
then `update_past_key_value` copies the decoder-side key/value of length 1
to offset `i + input_ids.size()`; an eos token terminates the loop without
being appended; otherwise the token is appended and delivered to the sink,
whose stop decision cancels the whole generation. -/
def whisper_with_past_loop_intended (oracle : WhisperOracle)
    (sink : Option (Int → Nat → Bool)) (eos : Int) (chunk : Nat) :
    Nat → Nat → Int → List Int → Nat → List WhisperEvent → WhisperFDResult
  | 0, _, _, toks, put, evs =>
    { cancelled := false, tokens := toks, put_index := put, events := evs }
  | fuel + 1, i, _last, toks, put, evs =>
    let evs := evs ++ [WhisperEvent.withPastInfer chunk i]
    let tok := oracle.step chunk i
    let evs := evs ++
      [WhisperEvent.decoderKVCopy chunk (i + whisper_input_ids.length) 1]
    if tok = eos then
      { cancelled := false, tokens := toks, put_index := put, events := evs }
    else
      let toks := toks ++ [tok]
      match sink with
      | some f =>
        let evs := evs ++ [WhisperEvent.streamPut chunk tok]
        if f tok put then
          { cancelled := true, tokens := toks, put_index := put + 1, events := evs }
        else
          whisper_with_past_loop_intended oracle sink eos chunk fuel (i + 1) tok
            toks (put + 1) evs
      | none =>
        whisper_with_past_loop_intended oracle sink eos chunk fuel (i + 1) tok
          toks put evs
  -- `last` is dead after the first iteration rewrites it; kept for shape
  -- fidelity with `output_tokens.back()` of line 318.

/-- Modelled from the spec: `full_decode` (lines 297–332) with the debug
failure of `decode_with_past` removed as above.  Runs the first decode over
the fixed special-token prompt, streams its token (appending it to the chunk
result), returns at once when only one token may be produced, otherwise
prepares the decode-with-past graph (cross-attention bridge) and enters the
per-token loop with `max_new_tokens - 1` remaining steps. -/
def whisper_full_decode_intended (oracle : WhisperOracle)
    (sink : Option (Int → Nat → Bool)) (eos : Int) (chunk : Nat)
    (max_new : Nat) (put : Nat) : WhisperFDResult :=
  let evs := [WhisperEvent.firstDecodeInfer chunk]
  let t0 := oracle.first chunk
  let toks := [t0]
  match sink with
  | some f =>
    let evs := evs ++ [WhisperEvent.streamPut chunk t0]
    if f t0 put then
      { cancelled := true, tokens := toks, put_index := put + 1, events := evs }
    else if max_new = 1 then
      { cancelled := false, tokens := toks, put_index := put + 1, events := evs }
    else
      whisper_with_past_loop_intended oracle sink eos chunk (max_new - 1) 0 t0
        toks (put + 1) (evs ++ prepare_decoder_with_past_events chunk)
  | none =>
    if max_new = 1 then
      { cancelled := false, tokens := toks, put_index := put, events := evs }
    else
      whisper_with_past_loop_intended oracle sink eos chunk (max_new - 1) 0 t0
        toks put (evs ++ prepare_decoder_with_past_events chunk)

/-- Faithful `full_decode` (lines 297–332), debug `throw 1` included: any
call that reaches the per-token loop with fuel aborts with the propagated
debug failure. -/
def whisper_full_decode_faithful (oracle : WhisperOracle)
    (sink : Option (Int → Nat → Bool)) (chunk : Nat) (max_new : Nat)
    (put : Nat) : Except (List WhisperEvent) WhisperFDResult :=
  let evs := [WhisperEvent.firstDecodeInfer chunk]
  let t0 := oracle.first chunk
  let toks := [t0]
  match sink with
  | some f =>
    let evs := evs ++ [WhisperEvent.streamPut chunk t0]
    if f t0 put then
      Except.ok { cancelled := true, tokens := toks, put_index := put + 1, events := evs }
    else if max_new = 1 then
      Except.ok { cancelled := false, tokens := toks, put_index := put + 1, events := evs }
    else
      whisper_with_past_loop_faithful chunk (max_new - 1) 0 toks
        (evs ++ prepare_decoder_with_past_events chunk)
  | none =>
    if max_new = 1 then
      Except.ok { cancelled := false, tokens := toks, put_index := put, events := evs }
    else
      whisper_with_past_loop_faithful chunk (max_new - 1) 0 toks
        (evs ++ prepare_decoder_with_past_events chunk)

/-- The chunk loop of `StaticWhisperPipeline::generate` (lines 389–412),
one fuel unit per remaining chunk, using the intended (debug-failure-free)
`full_decode`.  Per chunk: stop when past the end of the input
(`chunk_offset < raw_speech_input.size()`, with `chunk_offset = c *
n_samples`) or when the accumulated tokens reach `max_new_tokens`; otherwise
extract features and run the encoder, fully decode the chunk with the
remaining token budget, append its tokens, and stop if the sink cancelled. -/
def whisper_chunk_loop (oracle : WhisperOracle)
    (sink : Option (Int → Nat → Bool)) (eos : Int) (max_new : Nat)
    (raw_len n_samples : Nat) :
    Nat → Nat → List Int → Nat → List WhisperEvent →
    List Int × List WhisperEvent
  | 0, _, toks, _, evs => (toks, evs)
  | fuel + 1, c, toks, put, evs =>
    if raw_len ≤ c * n_samples then (toks, evs)
    else if max_new ≤ toks.length then (toks, evs)
    else
      let evs := evs ++ [WhisperEvent.encodeInfer c]
      let r := whisper_full_decode_intended oracle sink eos c
        (max_new - toks.length) put
      let toks := toks ++ r.tokens
      let evs := evs ++ r.events
      if r.cancelled then (toks, evs)
      else whisper_chunk_loop oracle sink eos max_new raw_len n_samples fuel
        (c + 1) toks r.put_index evs

/-- `StaticWhisperPipeline::generate` (lines 371–416) with the intended
(debug-failure-free) decode path: the audio input, of which only the sample
count steers control flow, is split into `n_samples`-sized chunks and the
chunk loop is run from chunk 0 with an empty token accumulator.  The fuel
`raw_len / n_samples + 1` covers every chunk offset below `raw_len`
(for `n_samples ≥ 1` the loop's own bound check stops it first). -/
def whisper_generate (oracle : WhisperOracle)
    (sink : Option (Int → Nat → Bool)) (eos : Int) (max_new : Nat)
    (raw_len n_samples : Nat) : List Int × List WhisperEvent :=
  whisper_chunk_loop oracle sink eos max_new raw_len n_samples
    (raw_len / n_samples + 1) 0 [] 0 []

/-!
## Logit suppression and argmax (`suppress_tokens`, lines 35–46)

The logits are `float` in the source; suppression assigns
`-std::numeric_limits<float>::infinity()` and the subsequent argmax only
compares values.  Since only assignment and order comparison occur — no
float arithmetic, and spectrogram-derived logits are not NaN — the value
domain is modelled as an ordered set with a bottom element: `negInf` below
every finite value, finite values ordered as integers.
-/

/-- A logit: negative infinity, or a finite value. -/
inductive Logit where
  | negInf
  | val (x : Int)
deriving DecidableEq

/-- Strict order on logits as `float` comparison performs it: nothing is
below `negInf` (in particular `-inf < -inf` is false), and `negInf` is below
every finite value. -/
def Logit.ltb : Logit → Logit → Bool
  | _, .negInf => false
  | .negInf, .val _ => true
  | .val a, .val b => decide (a < b)

/-- `suppress_tokens` (lines 35–46) on the logits row it addresses (the last
sequence position of the chosen batch): each index of the suppression list
is assigned negative infinity, in place. -/
def suppress_tokens (logits : List Logit) (suppress : List Nat) : List Logit :=
  suppress.foldl (fun l t => l.set t Logit.negInf) logits

/-- Modelled from the spec: `ov::genai::utils::argmax` is not under `src/`;
per the spec it returns the index of the maximum remaining value, ties
resolving to the lowest index (first occurrence under a left-to-right
maximum scan). -/
def argmax_go : List Logit → Nat → Nat → Logit → Nat
  | [], _, best, _ => best
  | v :: rest, i, best, bv =>
    if bv.ltb v then argmax_go rest (i + 1) i v
    else argmax_go rest (i + 1) best bv

/-- Modelled from the spec: the left-to-right maximum scan over a logits
row, starting from index 0 with negative infinity as the running maximum. -/
def argmax (logits : List Logit) : Nat :=
  argmax_go logits 0 0 Logit.negInf

/-!
## Trace analysis helpers
-/

/-- How many times the cross-attention key/value copy ran for chunk `c`. -/
def cross_attn_copy_count (c : Nat) (evs : List WhisperEvent) : Nat :=
  (evs.filter (fun e => e == WhisperEvent.crossAttnCopy c)).length

/-- How many times the cross-attention key/value copy ran over the whole
generation call. -/
def cross_attn_copy_total (evs : List WhisperEvent) : Nat :=
  (evs.filter (fun e => match e with
    | WhisperEvent.crossAttnCopy _ => true
    | _ => false)).length

/-- The decoder-side key/value copies of chunk `c`, in trace order, as
`(kv_pos, kv_size)` pairs — destination offset and copied length along the
sequence axis. -/
def decoder_kv_copies (c : Nat) (evs : List WhisperEvent) : List (Nat × Nat) :=
  evs.filterMap fun e => match e with
    | WhisperEvent.decoderKVCopy c2 p s => if c2 = c then some (p, s) else none
    | _ => none

/-!
## Theorems

Concrete-input evaluations are checked with `decide`; the evaluations that
walk the full 1024-slot buffers of the as-constructed pipeline need a larger
elaborator recursion budget.
-/

set_option maxRecDepth 1000000

set_option maxHeartbeats 1000000

/-- **C1.**  The claim's invariant `0 ≤ stored_count ≤ total_capacity` is
violated by the code at the admitted boundary `prompt_len = total_capacity`:
for the as-constructed pipeline (`total_size = 1024`), a 1024-token prompt
with `max_new_tokens = 2`, no sink, and a next token differing from the
default eos, the generate step still runs and leaves
`num_stored_tokens = 1025 > 1024`.  (The reset to 0, the prefill update to
`prompt_len` and the per-step increment by 1 all happen as claimed — the
recorded events show stored counts 0, then 1024 — but no stop condition
fires at `stored_count = total_capacity`, contradicting the code's own
"KV-cache is full, further generation is impossible" comment.) -/
theorem c1_stored_count_exceeds_capacity_at_boundary :
    (npu_generate (npu_initial_state 1024 0) 0
      (List.replicate 1024 1) (List.replicate 1024 1)
      { max_new_tokens := 2, eos_token_id := -1, is_greedy := true }
      { max_new_tokens := 2, eos_token_id := 2, is_greedy := true }
      none (fun _ => 7)).state.desc.num_stored_tokens = 1025
    ∧ 1024 < 1025 :=
  ⟨by decide, by decide⟩

/-- **C2.**  At the admitted boundary `prompt_len = total_capacity = 1024`
(with `max_new_tokens = 3`, no sink, no eos) the generate-graph inference
*is* executed with `stored_count = 1024 = total_capacity` — and again with
1025 — and the attention-mask write index `total_size - stored_count - 1`
underflows in `uint32_t` to 4294967295 and 4294967294, far beyond the
1024-element mask. -/
theorem c2_infer_runs_with_full_cache_and_mask_index_out_of_bounds :
    (npu_generate (npu_initial_state 1024 0) 0
      (List.replicate 1024 1) (List.replicate 1024 1)
      { max_new_tokens := 3, eos_token_id := -1, is_greedy := true }
      { max_new_tokens := 3, eos_token_id := 2, is_greedy := true }
      none (fun _ => 7)).events =
      [NPUEvent.prefillInfer 0,
       NPUEvent.generateInfer 1024 4294967295,
       NPUEvent.generateInfer 1025 4294967294]
    ∧ 1024 ≤ 4294967295 :=
  ⟨by decide, by decide⟩

/-- **C6.**  Evaluation of the prefill position-id padding at the failing
input `prompt_len = 2`, `total_capacity = 1024`: the `std::iota` of line 246
starts one slot too far right (`total_size - prompt_len + 1`), so it writes
only the single value 0 at index 1023 and the buffer stays all-zero — the
rightmost `prompt_len` slots do *not* hold `0, 1`: slot 1023 holds 0, not
`prompt_len - 1 = 1` as the claimed contiguous sequence requires (and as the
decode loop's own position numbering, which gives the first generated token
position `prompt_len`, presupposes). -/
theorem c6_position_ids_iota_off_by_one :
    prefill_position_ids_buffer 1024 2 = List.replicate 1024 0
    ∧ (prefill_position_ids_buffer 1024 2).getD 1023 0 ≠ 1 :=
  ⟨by decide, by decide⟩

/-- **C4, counterexample.**  Pipeline default eos 2, per-call override eos 5
(so the effective eos of the claim is 5), tokens after prefill: 5 then 2.
The claim says the loop terminates at the effective eos 5 and the result
excludes it; the code instead continues past 5, stops at the *default* eos
2, and returns `[5, 2]` — which contains both the effective eos and the
stop-triggering default eos token. -/
theorem c4_counterexample_effective_eos_neither_stops_nor_excluded :
    effective_eos
      { max_new_tokens := 10, eos_token_id := 5, is_greedy := true }
      { max_new_tokens := 10, eos_token_id := 2, is_greedy := true } = 5
    ∧ (npu_generate (npu_initial_state 1024 0) 0 [1, 2, 3] [1, 1, 1]
        { max_new_tokens := 10, eos_token_id := 5, is_greedy := true }
        { max_new_tokens := 10, eos_token_id := 2, is_greedy := true }
        none (fun n => if n = 1 then 5 else if n = 2 then 2 else 7)).result
      = Except.ok [5, 2]
    ∧ (5 : Int) ∈ [(5 : Int), 2] :=
  ⟨by decide, rfl, by decide⟩

/-- **C5, counterexample.**  `max_new_tokens = 5`, a sink that stops on the
3rd produced token (put index 2), no eos, ample capacity: the result holds
`[7, 7]` — exactly 2 tokens, not the 3 the claim states, because the first
produced token (selected from the prefill logits, put index 0) is streamed
but never appended to the result. -/
theorem c5_counterexample_two_tokens_not_three :
    (npu_generate (npu_initial_state 1024 0) 0 [1, 2] [1, 1]
      { max_new_tokens := 5, eos_token_id := -1, is_greedy := true }
      { max_new_tokens := 5, eos_token_id := 2, is_greedy := true }
      (some fun _ n => n == 2) (fun _ => 7)).result = Except.ok [7, 7]
    ∧ ([(7 : Int), 7]).length = 2
    ∧ (2 : Nat) ≠ 3 :=
  ⟨rfl, by decide, by decide⟩

/-- **C7, counterexample.**  Two audio chunks (`raw_len = 20`, `n_samples =
10`), token budget 10, no sink, each chunk's first with-past token hitting
eos: the cross-attention key/value copy runs once in chunk 0 *and* once in
chunk 1 — twice in the one generation call, not "exactly once per generation
call regardless of chunk count". -/
theorem c7_counterexample_cross_copy_runs_once_per_chunk :
    cross_attn_copy_total
      (whisper_generate { first := fun _ => 5, step := fun _ _ => 2 }
        none 2 10 20 10).2 = 2
    ∧ cross_attn_copy_count 0
        (whisper_generate { first := fun _ => 5, step := fun _ _ => 2 }
          none 2 10 20 10).2 = 1
    ∧ cross_attn_copy_count 1
        (whisper_generate { first := fun _ => 5, step := fun _ _ => 2 }
          none 2 10 20 10).2 = 1
    ∧ (2 : Nat) ≠ 1 :=
  ⟨by decide, by decide, by decide, by decide⟩

/-- **C8, counterexample.**  Two audio chunks (`raw_len = 8`, `n_samples =
4`), no sink, chunk 0's decode loop terminating early on eos at its first
with-past step: the outer chunk loop does *not* stop — chunk 1 is still
encoded and decoded afterwards (its encoder and first-decode inferences are
in the trace). -/
theorem c8_counterexample_eos_in_chunk0_chunk1_still_processed :
    (whisper_generate { first := fun _ => 5, step := fun _ _ => 2 }
      none 2 10 8 4).2 =
      [WhisperEvent.encodeInfer 0, WhisperEvent.firstDecodeInfer 0,
       WhisperEvent.crossAttnCopy 0, WhisperEvent.decoderKVCopy 0 0 4,
       WhisperEvent.withPastInfer 0 0, WhisperEvent.decoderKVCopy 0 4 1,
       WhisperEvent.encodeInfer 1, WhisperEvent.firstDecodeInfer 1,
       WhisperEvent.crossAttnCopy 1, WhisperEvent.decoderKVCopy 1 0 4,
       WhisperEvent.withPastInfer 1 0, WhisperEvent.decoderKVCopy 1 4 1]
    ∧ WhisperEvent.encodeInfer 1 ∈
        (whisper_generate { first := fun _ => 5, step := fun _ _ => 2 }
          none 2 10 8 4).2 :=
  ⟨by decide, by decide⟩

/-- **C9, counterexample.**  A two-entry logits row whose unsuppressed entry
is itself negative infinity: suppressing every index but 1 yields an
all-negative-infinity row, and the left-to-right maximum scan returns index
0, not the one remaining index 1 — the claim's argmax clause fails when the
remaining entry is not above negative infinity. -/
theorem c9_counterexample_argmax_with_neginf_remainder :
    suppress_tokens [Logit.val 0, Logit.negInf] [0] = [Logit.negInf, Logit.negInf]
    ∧ argmax (suppress_tokens [Logit.val 0, Logit.negInf] [0]) = 0
    ∧ (0 : Nat) ≠ 1 :=
  ⟨by decide, by decide, by decide⟩

/-- **C3.**  A prompt longer than the capacity fails fast: the call returns
the capacity-exceeded error — whose text contains the capacity value — and
performs no inference at all (`events = []`), leaving the pipeline's cache
state untouched.  (`hg` pins the per-call config to the supported greedy
mode, whose check on line 220 precedes the capacity check of line 231; a
non-greedy request would fail even earlier, equally without inference.) -/
theorem c3_capacity_exceeded_fails_fast
    (st : NPUState) (pad : Int) (input attn : List Int)
    (cfg default_cfg : NPUGenerationConfig)
    (sink : Option (Int → Nat → Bool)) (oracle : Nat → Int)
    (hg : cfg.is_greedy = true)
    (h : st.desc.total_size < input.length) :
    (npu_generate st pad input attn cfg default_cfg sink oracle).result
      = Except.error ("Currently NPU device may only process up to "
          ++ toString st.desc.total_size ++ " tokens")
    ∧ (npu_generate st pad input attn cfg default_cfg sink oracle).state = st
    ∧ (npu_generate st pad input attn cfg default_cfg sink oracle).events = []
    ∧ ∃ pre post, ("Currently NPU device may only process up to "
          ++ toString st.desc.total_size ++ " tokens")
        = pre ++ toString st.desc.total_size ++ post := by
  refine ⟨?_, ?_, ?_,
    ⟨"Currently NPU device may only process up to ", " tokens", rfl⟩⟩
  all_goals simp [npu_generate, hg, h]

/-- Events already in the loop state survive every further iteration: the
loop only appends to the trace. -/
theorem npu_decode_loop_events_sub (oracle : Nat → Int)
    (sink : Option (Int → Nat → Bool)) (default_eos : Int) (total : Nat) :
    ∀ fuel s, s.events ⊆ (npu_decode_loop oracle sink default_eos total fuel s).events := by
  intro fuel
  induction fuel with
  | zero => intro s; simp [npu_decode_loop]
  | succ n ih =>
    intro s x hx
    cases sink with
    | none =>
      simp only [npu_decode_loop]
      split
      · exact List.mem_append_left _ hx
      · split
        · exact List.mem_append_left _ hx
        · exact ih _ (List.mem_append_left _ hx)
    | some f =>
      simp only [npu_decode_loop]
      split
      · exact List.mem_append_left _ (List.mem_append_left _ hx)
      · split
        · exact List.mem_append_left _ (List.mem_append_left _ hx)
        · split
          · exact List.mem_append_left _ (List.mem_append_left _ hx)
          · exact ih _ (List.mem_append_left _ (List.mem_append_left _ hx))

/-- With no sink, a token equal to the pipeline-default eos ends the loop
immediately after being appended: if the default eos occurs in the produced
tokens at all, it is the final one. -/
theorem npu_decode_loop_eos_is_last (oracle : Nat → Int)
    (default_eos : Int) (total : Nat) :
    ∀ fuel s, default_eos ∉ s.tokens →
      default_eos ∈ (npu_decode_loop oracle none default_eos total fuel s).tokens →
      (npu_decode_loop oracle none default_eos total fuel s).tokens.getLast?
        = some default_eos := by
  intro fuel
  induction fuel with
  | zero => intro s hs hmem; exact absurd hmem hs
  | succ n ih =>
    intro s hs hmem
    by_cases ht : oracle s.infer_index = default_eos
    · simp only [npu_decode_loop, ht, if_true] at hmem ⊢
      simp [List.getLast?_concat]
    · by_cases hf : s.stored + 1 = total
      · simp only [npu_decode_loop, ht, hf, if_false, if_true, ite_true, ite_false] at hmem
        rcases List.mem_append.mp hmem with h1 | h1
        · exact absurd h1 hs
        · rw [List.mem_singleton] at h1
          exact absurd h1.symm ht
      · simp only [npu_decode_loop, ht, hf, if_false, ite_false] at hmem ⊢
        refine ih _ ?_ hmem
        intro hc
        rcases List.mem_append.mp hc with h1 | h1
        · exact hs h1
        · rw [List.mem_singleton] at h1
          exact ht h1.symm

/-- **C4, amended.**  Without a sink, the decode loop terminates when the
selected token equals the *pipeline-default* `eos_token_id` (the per-call
override is never consulted by the loop's check, line 297), and the returned
token list *includes* that eos token as its final element: whenever the
default eos occurs in a successfully returned token list, it is the last
token. -/
theorem c4_amended_default_eos_stops_loop_and_is_included
    (st : NPUState) (pad : Int) (input attn : List Int)
    (cfg default_cfg : NPUGenerationConfig) (oracle : Nat → Int)
    (ts : List Int)
    (h : (npu_generate st pad input attn cfg default_cfg none oracle).result
      = Except.ok ts)
    (hmem : default_cfg.eos_token_id ∈ ts) :
    ts.getLast? = some default_cfg.eos_token_id := by
  by_cases hg : cfg.is_greedy = false
  · simp [npu_generate, hg] at h
  · by_cases hc : st.desc.total_size < input.length
    · simp [npu_generate, hg, hc] at h
    · simp only [npu_generate] at h
      rw [if_neg hg] at h
      rw [if_neg hc] at h
      simp only [Bool.false_eq_true, if_false, Except.ok.injEq] at h
      subst h
      exact npu_decode_loop_eos_is_last oracle default_cfg.eos_token_id _ _ _
        (List.not_mem_nil _) hmem

/-- **C10.**  The first token — selected from the prefill logits — is
delivered to the streaming sink (put index 0) but never appended to the
returned token list: with `max_new_tokens = 1` the decode loop runs zero
iterations and the result is empty, and when the sink stops on that first
token the call returns the empty result at once. -/
theorem c10_first_token_streamed_never_returned
    (st : NPUState) (pad : Int) (input attn : List Int)
    (cfg default_cfg : NPUGenerationConfig) (s : Int → Nat → Bool)
    (oracle : Nat → Int)
    (hg : cfg.is_greedy = true)
    (hcap : input.length ≤ st.desc.total_size) :
    NPUEvent.streamerPut (oracle 0) 0
      ∈ (npu_generate st pad input attn cfg default_cfg (some s) oracle).events
    ∧ (cfg.max_new_tokens = 1 →
        (npu_generate st pad input attn cfg default_cfg (some s) oracle).result
          = Except.ok [])
    ∧ (s (oracle 0) 0 = true →
        (npu_generate st pad input attn cfg default_cfg (some s) oracle).result
          = Except.ok []) := by
  have hg' : ¬cfg.is_greedy = false := by simp [hg]
  have hc' : ¬st.desc.total_size < input.length := Nat.not_lt.mpr hcap
  refine ⟨?_, ?_, ?_⟩
  · by_cases hf : s (oracle 0) 0 = true
    · simp only [npu_generate]
      rw [if_neg hg', if_neg hc']
      simp [hf]
    · simp only [npu_generate]
      rw [if_neg hg', if_neg hc']
      simp only [hf, if_false, ite_false, Bool.false_eq_true]
      exact npu_decode_loop_events_sub oracle (some s) default_cfg.eos_token_id
        _ _ _ (by simp)
  · intro hm
    by_cases hf : s (oracle 0) 0 = true
    · simp only [npu_generate]
      rw [if_neg hg', if_neg hc']
      simp [hf]
    · simp only [npu_generate]
      rw [if_neg hg', if_neg hc']
      simp only [hf, if_false, ite_false, Bool.false_eq_true, hm]
      simp [npu_decode_loop]
  · intro hstop
    simp only [npu_generate]
    rw [if_neg hg', if_neg hc']
    simp [hstop]

/-- **C5, amended.**  With `max_new_tokens = 5` and a sink that lets the
first two produced tokens pass and stops on the third (put index 2), the
result holds exactly the two loop-produced tokens `oracle 1` and `oracle 2`:
each loop token is appended before the sink's stop decision is checked, but
the first produced token (`oracle 0`, selected from the prefill logits) is
only streamed and never appended. -/
theorem c5_amended_stop_on_third_token_returns_two
    (st : NPUState) (pad : Int) (input attn : List Int)
    (cfg default_cfg : NPUGenerationConfig) (s : Int → Nat → Bool)
    (oracle : Nat → Int)
    (hg : cfg.is_greedy = true)
    (hm : cfg.max_new_tokens = 5)
    (hcap : input.length ≤ st.desc.total_size)
    (hfull : ¬input.length + 1 = st.desc.total_size)
    (hs0 : ∀ t, s t 0 = false)
    (hs1 : ∀ t, s t 1 = false)
    (hs2 : ∀ t, s t 2 = true)
    (he1 : ¬oracle 1 = default_cfg.eos_token_id) :
    (npu_generate st pad input attn cfg default_cfg (some s) oracle).result
      = Except.ok [oracle 1, oracle 2] := by
  have hg' : ¬cfg.is_greedy = false := by simp [hg]
  have hc' : ¬st.desc.total_size < input.length := Nat.not_lt.mpr hcap
  simp only [npu_generate]
  rw [if_neg hg', if_neg hc']
  simp only [hs0, if_false, ite_false, Bool.false_eq_true, hm]
  simp only [npu_decode_loop, prepare_for_new_conversation, hs1, hs2, he1,
    hfull, Nat.zero_add, if_false, ite_false, if_true, ite_true,
    Bool.false_eq_true, List.nil_append, Option.isSome]
  simp

/-- Witness for C3: a 1025-token prompt on the as-constructed 1024-capacity
pipeline fails with the message carrying "1024", no events, state intact. -/
theorem c3_capacity_exceeded_fails_fast_witness :
    (npu_generate (npu_initial_state 1024 0) 0
      (List.replicate 1025 1) (List.replicate 1025 1)
      { max_new_tokens := 5, eos_token_id := -1, is_greedy := true }
      { max_new_tokens := 5, eos_token_id := 2, is_greedy := true }
      none (fun _ => 7)).result
      = Except.error ("Currently NPU device may only process up to "
          ++ toString (1024 : Nat) ++ " tokens")
    ∧ (npu_generate (npu_initial_state 1024 0) 0
        (List.replicate 1025 1) (List.replicate 1025 1)
        { max_new_tokens := 5, eos_token_id := -1, is_greedy := true }
        { max_new_tokens := 5, eos_token_id := 2, is_greedy := true }
        none (fun _ => 7)).state = npu_initial_state 1024 0
    ∧ (npu_generate (npu_initial_state 1024 0) 0
        (List.replicate 1025 1) (List.replicate 1025 1)
        { max_new_tokens := 5, eos_token_id := -1, is_greedy := true }
        { max_new_tokens := 5, eos_token_id := 2, is_greedy := true }
        none (fun _ => 7)).events = [] := by
  have h := c3_capacity_exceeded_fails_fast (npu_initial_state 1024 0) 0
    (List.replicate 1025 1) (List.replicate 1025 1)
    { max_new_tokens := 5, eos_token_id := -1, is_greedy := true }
    { max_new_tokens := 5, eos_token_id := 2, is_greedy := true }
    none (fun _ => 7) rfl (by decide)
  exact ⟨h.1, h.2.1, h.2.2.1⟩

/-- Witness for the amended C4: with default eos 2 and tokens 7 then 2, the
result is `[2]` and its last element is the default eos. -/
theorem c4_amended_witness :
    ([(2 : Int)]).getLast? = some (2 : Int) :=
  c4_amended_default_eos_stops_loop_and_is_included
    (npu_initial_state 1024 0) 0 [1] [1]
    { max_new_tokens := 5, eos_token_id := -1, is_greedy := true }
    { max_new_tokens := 5, eos_token_id := 2, is_greedy := true }
    (fun n => if n = 0 then 7 else 2) [2] rfl (by decide)

/-- Witness for the amended C5: the concrete stop-on-third-token run returns
exactly the two loop-produced tokens. -/
theorem c5_amended_witness :
    (npu_generate (npu_initial_state 1024 0) 0 [1, 2] [1, 1]
      { max_new_tokens := 5, eos_token_id := -1, is_greedy := true }
      { max_new_tokens := 5, eos_token_id := 2, is_greedy := true }
      (some fun _ n => n == 2) (fun _ => 7)).result = Except.ok [7, 7] :=
  c5_amended_stop_on_third_token_returns_two (npu_initial_state 1024 0) 0
    [1, 2] [1, 1]
    { max_new_tokens := 5, eos_token_id := -1, is_greedy := true }
    { max_new_tokens := 5, eos_token_id := 2, is_greedy := true }
    (fun _ n => n == 2) (fun _ => 7)
    rfl rfl (by decide) (by decide)
    (fun _ => rfl) (fun _ => rfl) (fun _ => rfl) (by decide)

/-- Witness for C10: `max_new_tokens = 1` with a pass-through sink — the
first token is streamed (put index 0) and the returned list is empty. -/
theorem c10_witness :
    (npu_generate (npu_initial_state 1024 0) 0 [1, 2] [1, 1]
      { max_new_tokens := 1, eos_token_id := -1, is_greedy := true }
      { max_new_tokens := 5, eos_token_id := 2, is_greedy := true }
      (some fun _ _ => false) (fun _ => 7)).result = Except.ok []
    ∧ NPUEvent.streamerPut 7 0
      ∈ (npu_generate (npu_initial_state 1024 0) 0 [1, 2] [1, 1]
        { max_new_tokens := 1, eos_token_id := -1, is_greedy := true }
        { max_new_tokens := 5, eos_token_id := 2, is_greedy := true }
        (some fun _ _ => false) (fun _ => 7)).events := by
  have h := c10_first_token_streamed_never_returned (npu_initial_state 1024 0)
    0 [1, 2] [1, 1]
    { max_new_tokens := 1, eos_token_id := -1, is_greedy := true }
    { max_new_tokens := 5, eos_token_id := 2, is_greedy := true }
    (fun _ _ => false) (fun _ => 7) rfl (by decide)
  exact ⟨h.2.1 rfl, h.1⟩

/-- Every event the intended with-past loop appends is tagged with its own
chunk: events of the result are either inherited from the accumulator or
carry `chunk`. -/
theorem whisper_with_past_loop_tags (oracle : WhisperOracle)
    (sink : Option (Int → Nat → Bool)) (eos : Int) (chunk : Nat) :
    ∀ fuel i last toks put evs e,
      e ∈ (whisper_with_past_loop_intended oracle sink eos chunk fuel i last
        toks put evs).events →
      e ∈ evs ∨ e.chunkTag = chunk := by
  intro fuel
  induction fuel with
  | zero => intro i last toks put evs e he; exact Or.inl he
  | succ n ih =>
    intro i last toks put evs e he
    have step2 : ∀ x : WhisperEvent,
        x ∈ (evs ++ [WhisperEvent.withPastInfer chunk i]) ++
          [WhisperEvent.decoderKVCopy chunk (i + whisper_input_ids.length) 1] →
        x ∈ evs ∨ x.chunkTag = chunk := by
      intro x hx
      rcases List.mem_append.mp hx with h1 | h1
      · rcases List.mem_append.mp h1 with h2 | h2
        · exact Or.inl h2
        · rw [List.mem_singleton] at h2; subst h2; exact Or.inr rfl
      · rw [List.mem_singleton] at h1; subst h1; exact Or.inr rfl
    cases sink with
    | none =>
      simp only [whisper_with_past_loop_intended] at he
      split at he
      · exact step2 e he
      · rcases ih _ _ _ _ _ _ he with h1 | h1
        · exact step2 e h1
        · exact Or.inr h1
    | some f =>
      simp only [whisper_with_past_loop_intended] at he
      split at he
      · exact step2 e he
      · split at he
        · rcases List.mem_append.mp he with h1 | h1
          · exact step2 e h1
          · rw [List.mem_singleton] at h1; subst h1; exact Or.inr rfl
        · rcases ih _ _ _ _ _ _ he with h1 | h1
          · rcases List.mem_append.mp h1 with h2 | h2
            · exact step2 e h2
            · rw [List.mem_singleton] at h2; subst h2; exact Or.inr rfl
          · exact Or.inr h1

/-- The with-past loop never performs a cross-attention copy: the
cross-attention copy count is whatever the accumulator already held. -/
theorem whisper_with_past_loop_no_cross (oracle : WhisperOracle)
    (sink : Option (Int → Nat → Bool)) (eos : Int) (chunk c : Nat) :
    ∀ fuel i last toks put evs,
      cross_attn_copy_count c (whisper_with_past_loop_intended oracle sink eos
        chunk fuel i last toks put evs).events = cross_attn_copy_count c evs := by
  intro fuel
  induction fuel with
  | zero => intro i last toks put evs; rfl
  | succ n ih =>
    intro i last toks put evs
    cases sink with
    | none =>
      simp only [whisper_with_past_loop_intended]
      split
      · simp [cross_attn_copy_count, List.filter_append]
      · rw [ih]
        simp [cross_attn_copy_count, List.filter_append]
    | some f =>
      simp only [whisper_with_past_loop_intended]
      split
      · simp [cross_attn_copy_count, List.filter_append]
      · split
        · simp [cross_attn_copy_count, List.filter_append]
        · rw [ih]
          simp [cross_attn_copy_count, List.filter_append]

/-- For any chunk other than its own, the with-past loop adds no
decoder-side key/value copies. -/
theorem whisper_with_past_loop_copies_other (oracle : WhisperOracle)
    (sink : Option (Int → Nat → Bool)) (eos : Int) (chunk c : Nat)
    (hne : ¬c = chunk) :
    ∀ fuel i last toks put evs,
      decoder_kv_copies c (whisper_with_past_loop_intended oracle sink eos
        chunk fuel i last toks put evs).events = decoder_kv_copies c evs := by
  intro fuel
  induction fuel with
  | zero => intro i last toks put evs; rfl
  | succ n ih =>
    intro i last toks put evs
    have hne' : ¬chunk = c := fun hx => hne hx.symm
    cases sink with
    | none =>
      simp only [whisper_with_past_loop_intended]
      split
      · simp [decoder_kv_copies, List.filterMap_append, hne']
      · rw [ih]
        simp [decoder_kv_copies, List.filterMap_append, hne']
    | some f =>
      simp only [whisper_with_past_loop_intended]
      split
      · simp [decoder_kv_copies, List.filterMap_append, hne']
      · split
        · simp [decoder_kv_copies, List.filterMap_append, hne']
        · rw [ih]
          simp [decoder_kv_copies, List.filterMap_append, hne']

/-- For its own chunk, the with-past loop appends decoder-side key/value
copies of length 1 at the consecutive offsets
`i + whisper_input_ids.length`, `i + whisper_input_ids.length + 1`, …  -/
theorem whisper_with_past_loop_copies_self (oracle : WhisperOracle)
    (sink : Option (Int → Nat → Bool)) (eos : Int) (chunk : Nat) :
    ∀ fuel i last toks put evs, ∃ m,
      decoder_kv_copies chunk (whisper_with_past_loop_intended oracle sink eos
        chunk fuel i last toks put evs).events
        = decoder_kv_copies chunk evs
          ++ (List.range m).map (fun j => (i + whisper_input_ids.length + j, 1)) := by
  intro fuel
  induction fuel with
  | zero =>
    intro i last toks put evs
    exact ⟨0, by simp [whisper_with_past_loop_intended]⟩
  | succ n ih =>
    intro i last toks put evs
    have hone : decoder_kv_copies chunk
        ((evs ++ [WhisperEvent.withPastInfer chunk i]) ++
          [WhisperEvent.decoderKVCopy chunk (i + whisper_input_ids.length) 1])
        = decoder_kv_copies chunk evs ++ [(i + whisper_input_ids.length, 1)] := by
      simp [decoder_kv_copies, List.filterMap_append]
    have hshift : ∀ m : Nat,
        (decoder_kv_copies chunk evs ++ [(i + whisper_input_ids.length, 1)])
            ++ (List.range m).map (fun j => (i + 1 + whisper_input_ids.length + j, 1))
          = decoder_kv_copies chunk evs
            ++ (List.range (m + 1)).map (fun j => (i + whisper_input_ids.length + j, 1)) := by
      intro m
      have hfun : (fun j => (i + 1 + whisper_input_ids.length + j, (1 : Nat)))
          = (fun j => (i + whisper_input_ids.length + j, (1 : Nat))) ∘ Nat.succ := by
        funext j
        simp only [Function.comp_apply]
        congr 1
        omega
      rw [hfun, List.range_succ_eq_map, List.map_cons, List.map_map,
        List.append_assoc]
      simp
    cases sink with
    | none =>
      simp only [whisper_with_past_loop_intended]
      split
      · exact ⟨1, by rw [hone]; rw [show List.range 1 = [0] from rfl]; simp⟩
      · obtain ⟨m, hm⟩ := ih (i + 1) (oracle.step chunk i)
          (toks ++ [oracle.step chunk i]) put
          ((evs ++ [WhisperEvent.withPastInfer chunk i]) ++
            [WhisperEvent.decoderKVCopy chunk (i + whisper_input_ids.length) 1])
        exact ⟨m + 1, by rw [hm, hone, hshift]⟩
    | some f =>
      simp only [whisper_with_past_loop_intended]
      split
      · exact ⟨1, by rw [hone]; rw [show List.range 1 = [0] from rfl]; simp⟩
      · split
        · refine ⟨1, ?_⟩
          have : decoder_kv_copies chunk
              (((evs ++ [WhisperEvent.withPastInfer chunk i]) ++
                [WhisperEvent.decoderKVCopy chunk (i + whisper_input_ids.length) 1]) ++
                [WhisperEvent.streamPut chunk (oracle.step chunk i)])
              = decoder_kv_copies chunk evs ++ [(i + whisper_input_ids.length, 1)] := by
            simp [decoder_kv_copies, List.filterMap_append]
          rw [this]; rw [show List.range 1 = [0] from rfl]; simp
        · obtain ⟨m, hm⟩ := ih (i + 1) (oracle.step chunk i)
            (toks ++ [oracle.step chunk i]) (put + 1)
            (((evs ++ [WhisperEvent.withPastInfer chunk i]) ++
              [WhisperEvent.decoderKVCopy chunk (i + whisper_input_ids.length) 1]) ++
              [WhisperEvent.streamPut chunk (oracle.step chunk i)])
          refine ⟨m + 1, ?_⟩
          rw [hm]
          have hput : decoder_kv_copies chunk
              (((evs ++ [WhisperEvent.withPastInfer chunk i]) ++
                [WhisperEvent.decoderKVCopy chunk (i + whisper_input_ids.length) 1]) ++
                [WhisperEvent.streamPut chunk (oracle.step chunk i)])
              = decoder_kv_copies chunk evs ++ [(i + whisper_input_ids.length, 1)] := by
            simp [decoder_kv_copies, List.filterMap_append]
          rw [hput, hshift]

/-- Every event of an intended `full_decode` carries the chunk it decodes. -/
theorem whisper_full_decode_tags (oracle : WhisperOracle)
    (sink : Option (Int → Nat → Bool)) (eos : Int) (chunk max_new put : Nat) :
    ∀ e ∈ (whisper_full_decode_intended oracle sink eos chunk max_new
      put).events, e.chunkTag = chunk := by
  intro e he
  have base : ∀ (l : List WhisperEvent), (∀ x ∈ l, WhisperEvent.chunkTag x = chunk) →
      e ∈ l → e.chunkTag = chunk := fun _ hl hm => hl e hm
  cases sink with
  | none =>
    simp only [whisper_full_decode_intended] at he
    split at he
    · refine base _ ?_ he
      intro x hx
      rw [List.mem_singleton] at hx; subst hx; rfl
    · rcases whisper_with_past_loop_tags oracle none eos chunk _ _ _ _ _ _ _ he
        with h1 | h1
      · refine base _ ?_ h1
        intro x hx
        simp only [prepare_decoder_with_past_events, List.mem_append,
          List.mem_singleton, List.mem_cons, List.not_mem_nil, or_false] at hx
        rcases hx with hx | hx | hx <;> subst hx <;> rfl
      · exact h1
  | some f =>
    simp only [whisper_full_decode_intended] at he
    split at he
    · refine base _ ?_ he
      intro x hx
      simp only [List.mem_append, List.mem_singleton] at hx
      rcases hx with hx | hx <;> subst hx <;> rfl
    · split at he
      · refine base _ ?_ he
        intro x hx
        simp only [List.mem_append, List.mem_singleton] at hx
        rcases hx with hx | hx <;> subst hx <;> rfl
      · rcases whisper_with_past_loop_tags oracle (some f) eos chunk _ _ _ _ _ _ _ he
          with h1 | h1
        · refine base _ ?_ h1
          intro x hx
          simp only [prepare_decoder_with_past_events, List.mem_append,
            List.mem_singleton, List.mem_cons, List.not_mem_nil, or_false] at hx
          rcases hx with (hx | hx) | hx | hx <;> subst hx <;> rfl
        · exact h1

/-- One intended `full_decode` performs the cross-attention copy at most
once for its own chunk, and never for any other chunk. -/
theorem whisper_full_decode_cross_count (oracle : WhisperOracle)
    (sink : Option (Int → Nat → Bool)) (eos : Int) (chunk max_new put c : Nat) :
    cross_attn_copy_count c (whisper_full_decode_intended oracle sink eos chunk
      max_new put).events ≤ 1
    ∧ (¬c = chunk → cross_attn_copy_count c (whisper_full_decode_intended
        oracle sink eos chunk max_new put).events = 0) := by
  cases sink with
  | none =>
    simp only [whisper_full_decode_intended]
    split
    · constructor
      · simp [cross_attn_copy_count]
      · intro _; simp [cross_attn_copy_count]
    · rw [whisper_with_past_loop_no_cross]
      constructor
      · by_cases hc : c = chunk
        · subst hc
          simp [cross_attn_copy_count, prepare_decoder_with_past_events,
            List.filter_append]
        · simp [cross_attn_copy_count, prepare_decoder_with_past_events,
            List.filter_append, fun h => hc (congrArg id h)]
          simp [show ¬chunk = c from fun h => hc h.symm]
      · intro hc
        simp [cross_attn_copy_count, prepare_decoder_with_past_events,
          List.filter_append, show ¬chunk = c from fun h => hc h.symm]
  | some f =>
    simp only [whisper_full_decode_intended]
    split
    · constructor
      · simp [cross_attn_copy_count]
      · intro _; simp [cross_attn_copy_count]
    · split
      · constructor
        · simp [cross_attn_copy_count]
        · intro _; simp [cross_attn_copy_count]
      · rw [whisper_with_past_loop_no_cross]
        constructor
        · by_cases hc : c = chunk
          · subst hc
            simp [cross_attn_copy_count, prepare_decoder_with_past_events,
              List.filter_append]
          · simp [cross_attn_copy_count, prepare_decoder_with_past_events,
              List.filter_append, show ¬chunk = c from fun h => hc h.symm]
        · intro hc
          simp [cross_attn_copy_count, prepare_decoder_with_past_events,
            List.filter_append, show ¬chunk = c from fun h => hc h.symm]

/-- A bridge-preparation copy at offset 0 followed by length-1 copies at
consecutive offsets is a pairwise non-overlapping, strictly increasing
sequence of intervals. -/
theorem kv_copy_shape_pairwise (L m off : Nat) :
    ((off, L) :: (List.range m).map (fun j => (off + L + j, 1))).Pairwise
      (fun a b : Nat × Nat => a.1 + a.2 ≤ b.1) := by
  refine List.Pairwise.cons ?_ ?_
  · intro b hb
    rcases List.mem_map.mp hb with ⟨j, _, rfl⟩
    simp
  · rw [List.pairwise_map]
    refine (List.pairwise_lt_range m).imp ?_
    intro a b hab
    simp only []
    omega

/-- An intended `full_decode` performs no decoder-side key/value copy for
any chunk other than its own. -/
theorem whisper_full_decode_copies_other (oracle : WhisperOracle)
    (sink : Option (Int → Nat → Bool)) (eos : Int) (chunk max_new put c : Nat)
    (hne : ¬c = chunk) :
    decoder_kv_copies c (whisper_full_decode_intended oracle sink eos chunk
      max_new put).events = [] := by
  have hne2 : ¬chunk = c := fun h => hne h.symm
  cases sink with
  | none =>
    simp only [whisper_full_decode_intended]
    split
    · simp [decoder_kv_copies]
    · rw [whisper_with_past_loop_copies_other oracle none eos chunk c hne]
      simp [decoder_kv_copies, prepare_decoder_with_past_events,
        List.filterMap_append, hne2]
  | some f =>
    simp only [whisper_full_decode_intended]
    split
    · simp [decoder_kv_copies]
    · split
      · simp [decoder_kv_copies]
      · rw [whisper_with_past_loop_copies_other oracle (some f) eos chunk c hne]
        simp [decoder_kv_copies, prepare_decoder_with_past_events,
          List.filterMap_append, hne2]

/-- The decoder-side key/value copies an intended `full_decode` performs sit
at pairwise disjoint, strictly increasing offsets: length
`whisper_input_ids.length` at offset 0 when the bridge is prepared, then
length 1 at offset `whisper_input_ids.length + j` after each completed step
`j`. -/
theorem whisper_full_decode_copies_pairwise (oracle : WhisperOracle)
    (sink : Option (Int → Nat → Bool)) (eos : Int) (chunk max_new put c : Nat) :
    (decoder_kv_copies c (whisper_full_decode_intended oracle sink eos chunk
      max_new put).events).Pairwise (fun a b => a.1 + a.2 ≤ b.1) := by
  by_cases hc : c = chunk
  · subst hc
    have hbase : decoder_kv_copies c
        ([WhisperEvent.firstDecodeInfer c] ++ prepare_decoder_with_past_events c)
        = [(0, whisper_input_ids.length)] := by
      simp [decoder_kv_copies, prepare_decoder_with_past_events]
    cases sink with
    | none =>
      simp only [whisper_full_decode_intended]
      split
      · simp [decoder_kv_copies]
      · obtain ⟨m, hm⟩ := whisper_with_past_loop_copies_self oracle none eos c
          (max_new - 1) 0 (oracle.first c) [oracle.first c] put
          ([WhisperEvent.firstDecodeInfer c] ++ prepare_decoder_with_past_events c)
        rw [hm, hbase]
        exact kv_copy_shape_pairwise whisper_input_ids.length m 0
    | some f =>
      have hbase2 : decoder_kv_copies c
          (([WhisperEvent.firstDecodeInfer c] ++
              [WhisperEvent.streamPut c (oracle.first c)]) ++
            prepare_decoder_with_past_events c)
          = [(0, whisper_input_ids.length)] := by
        simp [decoder_kv_copies, prepare_decoder_with_past_events]
      simp only [whisper_full_decode_intended]
      split
      · simp [decoder_kv_copies]
      · split
        · simp [decoder_kv_copies]
        · obtain ⟨m, hm⟩ := whisper_with_past_loop_copies_self oracle (some f)
            eos c (max_new - 1) 0 (oracle.first c) [oracle.first c] (put + 1)
            (([WhisperEvent.firstDecodeInfer c] ++
                [WhisperEvent.streamPut c (oracle.first c)]) ++
              prepare_decoder_with_past_events c)
          rw [hm, hbase2]
          exact kv_copy_shape_pairwise whisper_input_ids.length m 0
  · rw [whisper_full_decode_copies_other oracle sink eos chunk max_new put c hc]
    exact List.Pairwise.nil

/-- Along the chunk loop, the cross-attention copy count for any fixed chunk
grows by at most one — and not at all once the loop has moved past it. -/
theorem whisper_chunk_loop_cross_count (oracle : WhisperOracle)
    (sink : Option (Int → Nat → Bool)) (eos : Int) (max_new raw_len n_samples : Nat) :
    ∀ fuel c0 toks put evs c,
      (c < c0 → cross_attn_copy_count c (whisper_chunk_loop oracle sink eos
          max_new raw_len n_samples fuel c0 toks put evs).2
        = cross_attn_copy_count c evs)
      ∧ cross_attn_copy_count c (whisper_chunk_loop oracle sink eos max_new
          raw_len n_samples fuel c0 toks put evs).2
        ≤ cross_attn_copy_count c evs + 1 := by
  intro fuel
  induction fuel with
  | zero =>
    intro c0 toks put evs c
    exact ⟨fun _ => rfl, Nat.le_succ _⟩
  | succ fl ih =>
    intro c0 toks put evs c
    simp only [whisper_chunk_loop]
    split
    · exact ⟨fun _ => rfl, Nat.le_succ _⟩
    · split
      · exact ⟨fun _ => rfl, Nat.le_succ _⟩
      · have henc : ∀ evs2 : List WhisperEvent,
            cross_attn_copy_count c (evs2 ++ [WhisperEvent.encodeInfer c0])
              = cross_attn_copy_count c evs2 := by
          intro evs2
          simp [cross_attn_copy_count, List.filter_append]
        have hfd := whisper_full_decode_cross_count oracle sink eos c0
          (max_new - toks.length) put c
        have happ : cross_attn_copy_count c
            ((evs ++ [WhisperEvent.encodeInfer c0]) ++
              (whisper_full_decode_intended oracle sink eos c0
                (max_new - toks.length) put).events)
            = cross_attn_copy_count c evs
              + cross_attn_copy_count c (whisper_full_decode_intended oracle
                  sink eos c0 (max_new - toks.length) put).events := by
          simp [cross_attn_copy_count, List.filter_append]
        split
        · constructor
          · intro hlt
            rw [happ, hfd.2 (by omega)]
            omega
          · rw [happ]
            exact Nat.add_le_add_left hfd.1 _
        · constructor
          · intro hlt
            rw [(ih (c0 + 1) _ _ _ c).1 (by omega), happ, hfd.2 (by omega)]
            omega
          · by_cases hc : c = c0
            · subst hc
              rw [(ih (c + 1) _ _ _ c).1 (by omega), happ]
              exact Nat.add_le_add_left hfd.1 _
            · refine le_trans (ih (c0 + 1) _ _ _ c).2 ?_
              rw [happ, hfd.2 hc]

/-- Along the chunk loop, the decoder-side key/value copies of any fixed
chunk form a single pairwise-disjoint increasing block, appended exactly
while that chunk is being processed. -/
theorem whisper_chunk_loop_copies (oracle : WhisperOracle)
    (sink : Option (Int → Nat → Bool)) (eos : Int) (max_new raw_len n_samples : Nat) :
    ∀ fuel c0 toks put evs c, ∃ rest,
      decoder_kv_copies c (whisper_chunk_loop oracle sink eos max_new raw_len
        n_samples fuel c0 toks put evs).2
        = decoder_kv_copies c evs ++ rest
      ∧ rest.Pairwise (fun a b => a.1 + a.2 ≤ b.1)
      ∧ (c < c0 → rest = []) := by
  intro fuel
  induction fuel with
  | zero =>
    intro c0 toks put evs c
    exact ⟨[], by simp [whisper_chunk_loop], List.Pairwise.nil, fun _ => rfl⟩
  | succ fl ih =>
    intro c0 toks put evs c
    simp only [whisper_chunk_loop]
    split
    · exact ⟨[], by simp, List.Pairwise.nil, fun _ => rfl⟩
    · split
      · exact ⟨[], by simp, List.Pairwise.nil, fun _ => rfl⟩
      · have happ : decoder_kv_copies c
            ((evs ++ [WhisperEvent.encodeInfer c0]) ++
              (whisper_full_decode_intended oracle sink eos c0
                (max_new - toks.length) put).events)
            = decoder_kv_copies c evs
              ++ decoder_kv_copies c (whisper_full_decode_intended oracle
                  sink eos c0 (max_new - toks.length) put).events := by
          simp [decoder_kv_copies, List.filterMap_append]
        split
        · refine ⟨decoder_kv_copies c (whisper_full_decode_intended oracle
            sink eos c0 (max_new - toks.length) put).events, happ,
            whisper_full_decode_copies_pairwise oracle sink eos c0
              (max_new - toks.length) put c, ?_⟩
          intro hlt
          exact whisper_full_decode_copies_other oracle sink eos c0
            (max_new - toks.length) put c (by omega)
        · obtain ⟨rest, hr1, hr2, hr3⟩ := ih (c0 + 1)
            (toks ++ (whisper_full_decode_intended oracle sink eos c0
              (max_new - toks.length) put).tokens)
            (whisper_full_decode_intended oracle sink eos c0
              (max_new - toks.length) put).put_index
            ((evs ++ [WhisperEvent.encodeInfer c0]) ++
              (whisper_full_decode_intended oracle sink eos c0
                (max_new - toks.length) put).events) c
          by_cases hc : c = c0
          · subst hc
            refine ⟨decoder_kv_copies c (whisper_full_decode_intended oracle
              sink eos c (max_new - toks.length) put).events, ?_,
              whisper_full_decode_copies_pairwise oracle sink eos c
                (max_new - toks.length) put c, ?_⟩
            · rw [hr1, hr3 (by omega), happ, List.append_nil]
            · intro hlt
              omega
          · refine ⟨rest, ?_, hr2, ?_⟩
            · rw [hr1, happ, whisper_full_decode_copies_other oracle sink eos
                c0 (max_new - toks.length) put c hc, List.append_nil]
            · intro hlt
              exact hr3 (by omega)

/-- **C7, amended.**  In a Whisper generation call (intended decode path),
the encoder-side cross-attention key/value copy is performed at most once
per audio chunk — it recurs with every chunk that enters the multi-token
path, rather than once per generation call — and, within any one chunk, the
decoder-side self-attention key/value copies are written at strictly
increasing, non-overlapping offsets along the sequence axis: the bridge
preparation writes `whisper_input_ids.length` slots at offset 0, each step
`j` then writes 1 slot at offset `whisper_input_ids.length + j`. -/
theorem c7_amended_cross_copy_once_per_chunk_and_offsets_disjoint
    (oracle : WhisperOracle) (sink : Option (Int → Nat → Bool)) (eos : Int)
    (max_new raw_len n_samples c : Nat) :
    cross_attn_copy_count c
      (whisper_generate oracle sink eos max_new raw_len n_samples).2 ≤ 1
    ∧ (decoder_kv_copies c
        (whisper_generate oracle sink eos max_new raw_len n_samples).2).Pairwise
          (fun a b => a.1 + a.2 ≤ b.1) := by
  constructor
  · have h := (whisper_chunk_loop_cross_count oracle sink eos max_new raw_len
      n_samples (raw_len / n_samples + 1) 0 [] 0 [] c).2
    simpa [whisper_generate, cross_attn_copy_count] using h
  · obtain ⟨rest, h1, h2, _⟩ := whisper_chunk_loop_copies oracle sink eos
      max_new raw_len n_samples (raw_len / n_samples + 1) 0 [] 0 [] c
    have : decoder_kv_copies c
        (whisper_generate oracle sink eos max_new raw_len n_samples).2 = rest := by
      simpa [whisper_generate, decoder_kv_copies] using h1
    rw [this]
    exact h2

/-- **C8, amended.**  When the streaming sink cancels during a chunk — the
chunk's `full_decode` returns `cancelled = true` — the outer chunk loop
stops with it: every event of the remaining run is tagged with that chunk's
index or an earlier one, so no later audio chunk is encoded or decoded.
(An eos termination, by contrast, returns `cancelled = false` and the loop
proceeds — see the counterexample.) -/
theorem c8_amended_sink_stop_halts_chunk_loop
    (oracle : WhisperOracle) (sink : Option (Int → Nat → Bool)) (eos : Int)
    (max_new raw_len n_samples fuel c : Nat) (toks : List Int) (put : Nat)
    (hcan : (whisper_full_decode_intended oracle sink eos c
      (max_new - toks.length) put).cancelled = true) :
    ((whisper_chunk_loop oracle sink eos max_new raw_len n_samples (fuel + 1)
      c toks put []).2).all (fun e => decide (e.chunkTag ≤ c)) = true := by
  simp only [whisper_chunk_loop]
  split
  · rfl
  · split
    · rfl
    · rw [List.all_eq_true]
      intro e he
      rcases List.mem_append.mp he with h1 | h1
      · rcases List.mem_append.mp h1 with h2 | h2
        · exact absurd h2 (List.not_mem_nil e)
        · rw [List.mem_singleton] at h2
          subst h2
          simp [WhisperEvent.chunkTag]
      · have := whisper_full_decode_tags oracle sink eos c
          (max_new - toks.length) put e h1
        simp [this]

/-- Witness for the amended C8: a sink that stops on the very first token of
chunk 0 cancels the whole run — every event of the two-chunk loop is tagged
with chunk 0. -/
theorem c8_amended_witness :
    ((whisper_chunk_loop { first := fun _ => 5, step := fun _ _ => 7 }
      (some fun _ _ => true) 9 10 20 10 2 0 [] 0 []).2).all
      (fun e => decide (e.chunkTag ≤ 0)) = true :=
  c8_amended_sink_stop_halts_chunk_loop
    { first := fun _ => 5, step := fun _ _ => 7 } (some fun _ _ => true)
    9 10 20 10 1 0 [] 0 rfl

/-- Suppression never changes the length of the logits row. -/
theorem suppress_tokens_length (s : List Nat) (l : List Logit) :
    (suppress_tokens l s).length = l.length := by
  induction s generalizing l with
  | nil => rfl
  | cons t rest ih =>
    have hstep : suppress_tokens l (t :: rest)
        = suppress_tokens (l.set t Logit.negInf) rest := rfl
    rw [hstep, ih, List.length_set]

/-- Pointwise effect of `suppress_tokens`: a suppressed in-range index reads
negative infinity, every other index reads its original value. -/
theorem suppress_tokens_getElem? (s : List Nat) (l : List Logit) (i : Nat) :
    (suppress_tokens l s)[i]? =
      if i ∈ s ∧ i < l.length then some Logit.negInf else l[i]? := by
  induction s generalizing l with
  | nil => simp [suppress_tokens]
  | cons t rest ih =>
    have hstep : suppress_tokens l (t :: rest)
        = suppress_tokens (l.set t Logit.negInf) rest := rfl
    rw [hstep, ih, List.length_set]
    by_cases ht : t = i
    · subst ht
      by_cases hlen : t < l.length
      · by_cases hmem : t ∈ rest
        · simp [hmem, hlen, List.getElem?_set, List.mem_cons]
        · simp [hmem, hlen, List.getElem?_set, List.mem_cons]
      · have hnone : l[t]? = none := List.getElem?_eq_none (by omega)
        by_cases hmem : t ∈ rest
        · simp [hmem, hlen, List.getElem?_set, hnone, List.mem_cons]
        · simp [hmem, hlen, List.getElem?_set, hnone, List.mem_cons]
    · rw [List.getElem?_set_ne ht]
      by_cases hmem : i ∈ rest
      · simp [hmem, List.mem_cons]
      · have hne : ¬i = t := fun h => ht h.symm
        simp [hmem, hne, List.mem_cons]

/-- A run of negative infinities never displaces the running maximum of the
left-to-right scan. -/
theorem argmax_go_replicate_negInf (a : Nat) :
    ∀ (i best : Nat) (bv : Logit),
      argmax_go (List.replicate a Logit.negInf) i best bv = best := by
  induction a with
  | zero => intro i best bv; rfl
  | succ n ih =>
    intro i best bv
    have hlt : bv.ltb Logit.negInf = false := by cases bv <;> rfl
    simp only [List.replicate, argmax_go, hlt, Bool.false_eq_true, if_false]
    exact ih (i + 1) best bv

/-- Scanning a negative-infinity prefix with a negative-infinity running
maximum just advances the index. -/
theorem argmax_go_skip_negInf_run (l2 : List Logit) (a : Nat) :
    ∀ (i best : Nat),
      argmax_go (List.replicate a Logit.negInf ++ l2) i best Logit.negInf
        = argmax_go l2 (i + a) best Logit.negInf := by
  induction a with
  | zero => intro i best; simp [List.replicate]
  | succ n ih =>
    intro i best
    simp only [List.replicate, List.cons_append, argmax_go, List.append_eq]
    rw [show Logit.negInf.ltb Logit.negInf = false from rfl]
    simp only [Bool.false_eq_true, if_false]
    rw [ih (i + 1) best]
    congr 1
    omega

/-- The scan of a row that is negative infinity everywhere except one finite
entry returns that entry's index. -/
theorem argmax_unique_shape (k r : Nat) (x : Int) :
    argmax (List.replicate k Logit.negInf ++
      Logit.val x :: List.replicate r Logit.negInf) = k := by
  unfold argmax
  rw [argmax_go_skip_negInf_run]
  simp only [argmax_go]
  rw [show Logit.negInf.ltb (Logit.val x) = true from rfl]
  simp only [if_true, ite_true]
  rw [argmax_go_replicate_negInf]
  omega

/-- When every in-range index except `k` is suppressed and `l[k]` is finite,
the suppressed row is literally a negative-infinity row with one finite
entry at `k`. -/
theorem suppress_tokens_unique_shape (l : List Logit) (s : List Nat)
    (k : Nat) (x : Int)
    (hk : k < l.length) (hget : l[k]? = some (Logit.val x)) (hks : k ∉ s)
    (hall : ∀ j, j < l.length → j ≠ k → j ∈ s) :
    suppress_tokens l s = List.replicate k Logit.negInf ++
      Logit.val x :: List.replicate (l.length - k - 1) Logit.negInf := by
  apply List.ext_getElem?
  intro n
  rw [suppress_tokens_getElem?]
  by_cases h1 : n < k
  · rw [List.getElem?_append_left (by simp; omega)]
    rw [List.getElem?_replicate]
    have hmem : n ∈ s := hall n (by omega) (by omega)
    simp [hmem, h1]
    omega
  · by_cases h2 : n = k
    · subst h2
      rw [List.getElem?_append_right (by simp)]
      simp only [List.length_replicate, Nat.sub_self, List.getElem?_cons_zero]
      simp [hks, hget]
    · by_cases h3 : n < l.length
      · have hmem : n ∈ s := hall n h3 h2
        rw [List.getElem?_append_right (by simp; omega)]
        rw [show n - (List.replicate k Logit.negInf).length
            = (n - k - 1) + 1 from by simp; omega]
        rw [List.getElem?_cons_succ, List.getElem?_replicate]
        simp [hmem, h3]
        omega
      · have hnone : l[n]? = none := List.getElem?_eq_none (by omega)
        have hrnone : (List.replicate k Logit.negInf ++
            Logit.val x :: List.replicate (l.length - k - 1) Logit.negInf)[n]?
            = none := List.getElem?_eq_none (by simp; omega)
        simp [h3, hnone, hrnone]

/-- **C9, amended.**  Logit suppression is idempotent — re-suppressing a row
changes nothing: a suppressed in-range index (already at negative infinity
or not) reads negative infinity, and every unsuppressed index keeps its
original value — and for every row in which all indices but one are
suppressed and whose remaining entry is finite (strictly above negative
infinity), the argmax scan returns that one remaining index.  (When the
remaining entry is itself negative infinity the scan returns 0 instead —
see the counterexample.) -/
theorem c9_amended_suppression_idempotent_and_argmax_unique
    (l : List Logit) (s : List Nat) :
    suppress_tokens (suppress_tokens l s) s = suppress_tokens l s
    ∧ (∀ i, i ∈ s → i < l.length →
        (suppress_tokens l s)[i]? = some Logit.negInf)
    ∧ (∀ i, i ∉ s → (suppress_tokens l s)[i]? = l[i]?)
    ∧ (∀ k x, k < l.length → l[k]? = some (Logit.val x) → k ∉ s →
        (∀ j, j < l.length → j ≠ k → j ∈ s) →
        argmax (suppress_tokens l s) = k) := by
  refine ⟨?_, ?_, ?_, ?_⟩
  · apply List.ext_getElem?
    intro n
    rw [suppress_tokens_getElem? s (suppress_tokens l s) n, suppress_tokens_length]
    by_cases h : n ∈ s ∧ n < l.length
    · rw [suppress_tokens_getElem? s l n]
      simp [h]
    · simp [h]
  · intro i h1 h2
    rw [suppress_tokens_getElem?]
    simp [h1, h2]
  · intro i h1
    rw [suppress_tokens_getElem?]
    simp [h1]
  · intro k x hk hget hks hall
    rw [suppress_tokens_unique_shape l s k x hk hget hks hall]
    exact argmax_unique_shape k (l.length - k - 1) x

/-- Witness for the amended C9: on the row `[7, 3, 9]` with suppression set
`{0, 2}`, re-suppression changes nothing and the argmax scan returns the
one unsuppressed index 1. -/
theorem c9_amended_witness :
    suppress_tokens
        (suppress_tokens [Logit.val 7, Logit.val 3, Logit.val 9] [0, 2]) [0, 2]
      = suppress_tokens [Logit.val 7, Logit.val 3, Logit.val 9] [0, 2]
    ∧ (suppress_tokens [Logit.val 7, Logit.val 3, Logit.val 9] [0, 2])[0]?
      = some Logit.negInf
    ∧ (suppress_tokens [Logit.val 7, Logit.val 3, Logit.val 9] [0, 2])[1]?
      = some (Logit.val 3)
    ∧ argmax (suppress_tokens [Logit.val 7, Logit.val 3, Logit.val 9] [0, 2]) = 1 := by
  have h := c9_amended_suppression_idempotent_and_argmax_unique
    [Logit.val 7, Logit.val 3, Logit.val 9] [0, 2]
  refine ⟨h.1, h.2.1 0 (by decide) (by decide), ?_, ?_⟩
  · rw [h.2.2.1 1 (by decide)]
    rfl
  · exact h.2.2.2 1 3 (by decide) (by decide) (by decide)
      (by
        intro j hj hne
        simp only [List.length_cons, List.length_nil] at hj
        interval_cases j <;> simp_all)

/-- The faithful decode path: as soon as `full_decode` enters the per-token
loop (token budget above 1 and no immediate sink stop), the source's
unconditional debug `throw 1` (line 281) aborts the call during the first
decode-with-past step — here evaluated on a concrete input. -/
theorem whisper_full_decode_faithful_debug_abort :
    whisper_full_decode_faithful { first := fun _ => 5, step := fun _ _ => 7 }
      none 0 10 0
      = Except.error (([WhisperEvent.firstDecodeInfer 0] ++
          prepare_decoder_with_past_events 0) ++ [WhisperEvent.withPastInfer 0 0]) :=
  rfl
